import Mathlib

/-!
Shallow embedding of the mars-mission-analyzer pipeline (src/main.rs):
the record parser (`Mission.from_line`), the security-code and
comment/metadata checks, the line-by-line aggregator (`process_file`),
and the caller-side ranking and diagnostics from `main`.

Strings are Lean `String`s manipulated through their character lists,
mirroring Rust `&str` operations (`split('|')`, `trim`,
`eq_ignore_ascii_case`, `starts_with`) character by character.
-/

/-- Unicode white space, as Rust `char::is_whitespace` recognises it
(the `White_Space` property). -/
def rustIsWhitespace (c : Char) : Bool :=
  let n := c.toNat
  n = 0x20 || (0x9 ≤ n && n ≤ 0xD) || n = 0x85 || n = 0xA0 || n = 0x1680 ||
  (0x2000 ≤ n && n ≤ 0x200A) || n = 0x2028 || n = 0x2029 || n = 0x202F ||
  n = 0x205F || n = 0x3000

/-- Rust `str::trim`: drop leading and trailing whitespace. -/
def trimChars (cs : List Char) : List Char :=
  ((cs.dropWhile rustIsWhitespace).reverse.dropWhile rustIsWhitespace).reverse

/-- Rust `str::trim` packaged on `String`. -/
def rustTrim (s : String) : String := ⟨trimChars s.data⟩

/-- Rust `line.split('|')`: split at every pipe, keeping empty segments;
the empty string yields one empty segment. -/
def splitPipe : List Char → List (List Char)
  | [] => [[]]
  | c :: rest =>
    if c = '|' then [] :: splitPipe rest
    else
      match splitPipe rest with
      | seg :: segs => (c :: seg) :: segs
      | [] => [[c]]

def isAsciiDigit (c : Char) : Bool := 48 ≤ c.toNat && c.toNat ≤ 57

def isAsciiUpper (c : Char) : Bool := 65 ≤ c.toNat && c.toNat ≤ 90

/-- Rust `u8::to_ascii_lowercase`, lifted to `Char` (only A–Z move). -/
def asciiLower (c : Char) : Char :=
  if isAsciiUpper c then Char.ofNat (c.toNat + 32) else c

/-- Rust `str::eq_ignore_ascii_case`. -/
def eqIgnoreAsciiCase (a b : String) : Bool :=
  a.data.map asciiLower == b.data.map asciiLower

/-- Numeric value of a digit string, most significant first. -/
def digitsToNat (cs : List Char) : Nat :=
  cs.foldl (fun acc c => acc * 10 + (c.toNat - 48)) 0

/-- Rust `str::parse::<u32>`: an optional `+` sign, then one or more
ASCII digits, with the value bounded by `u32::MAX`; anything else fails. -/
def parseU32 (cs : List Char) : Option Nat :=
  let digits := match cs with
    | c :: rest => if c = '+' then rest else c :: rest
    | [] => []
  if !digits.isEmpty && digits.all isAsciiDigit then
    if digitsToNat digits ≤ 4294967295 then some (digitsToNat digits) else none
  else none

/-- Strip one optional leading `+` or `-`. -/
def stripSign : List Char → List Char
  | c :: rest => if c = '+' || c = '-' then rest else c :: rest
  | [] => []

/-- Mantissa of Rust's float grammar:
`Digit+ | Digit+ '.' Digit* | Digit* '.' Digit+`. -/
def isF64Mantissa (cs : List Char) : Bool :=
  let p := cs.span isAsciiDigit
  match p.2 with
  | [] => !p.1.isEmpty
  | '.' :: frac => (!p.1.isEmpty || !frac.isEmpty) && frac.all isAsciiDigit
  | _ => false

/-- Unsigned body of Rust's float grammar: a mantissa followed by an
optional exponent `('e'|'E') Sign? Digit+`. -/
def isF64Body (cs : List Char) : Bool :=
  let p := cs.span fun c => !(c = 'e' || c = 'E')
  match p.2 with
  | [] => isF64Mantissa p.1
  | _ :: expPart =>
    isF64Mantissa p.1 &&
      (let d := stripSign expPart; !d.isEmpty && d.all isAsciiDigit)

/-- Acceptance grammar of Rust `str::parse::<f64>`:
`Sign? ('inf' | 'infinity' | 'nan' | Number)`, the words case-insensitive. -/
def isF64Token (cs : List Char) : Bool :=
  let body := stripSign cs
  let lower := body.map asciiLower
  lower == ['i', 'n', 'f'] || lower == "infinity".data ||
    lower == ['n', 'a', 'n'] || isF64Body body

/-- Rust `str::parse::<f64>` modelled by its acceptance grammar. The
pipeline never consults the numeric value of the success rate (it is
only stored and printed), so the accepted token itself stands for the
parsed float. -/
def parseF64 (cs : List Char) : Option String :=
  if isF64Token cs then some ⟨cs⟩ else none

/-- The `Mission` record of src/main.rs. `crew_size` and `duration` are
`u32` in the source; `parseU32` enforces the `u32::MAX` bound, so `Nat`
carries them exactly. `success_rate` holds the accepted float token
(see `parseF64`). -/
structure Mission where
  date : String
  mission_id : String
  destination : String
  status : String
  crew_size : Nat
  duration : Nat
  success_rate : String
  security_code : String
  line_number : Nat
deriving Repr, DecidableEq

/-- `Mission::from_line`: split on `|`, require at least 8 segments,
trim each of the first 8, parse segments 4, 5 as `u32` and segment 6 as
`f64`; any failure rejects the whole line. -/
def Mission.from_line (line : String) (line_number : Nat) : Option Mission :=
  match splitPipe line.data with
  | p0 :: p1 :: p2 :: p3 :: p4 :: p5 :: p6 :: p7 :: _ =>
    match parseU32 (trimChars p4), parseU32 (trimChars p5),
        parseF64 (trimChars p6) with
    | some crew_size, some duration, some success_rate =>
      some { date := ⟨trimChars p0⟩, mission_id := ⟨trimChars p1⟩,
             destination := ⟨trimChars p2⟩, status := ⟨trimChars p3⟩,
             crew_size, duration, success_rate,
             security_code := ⟨trimChars p7⟩, line_number }
    | _, _, _ => none
  | _ => none

/-- The regex `^[A-Z]{3}-[0-9]{3}-[A-Z]{3}$` of
`Mission::is_valid_security_code`, as the equivalent anchored
character-class scan: exactly eleven characters, three ASCII uppercase
letters, a hyphen, three ASCII digits, a hyphen, three ASCII uppercase
letters. -/
def securityCodeMatches : List Char → Bool
  | [a, b, c, d, e, f, g, h, i, j, k] =>
    isAsciiUpper a && isAsciiUpper b && isAsciiUpper c && d = '-' &&
    isAsciiDigit e && isAsciiDigit f && isAsciiDigit g && h = '-' &&
    isAsciiUpper i && isAsciiUpper j && isAsciiUpper k
  | _ => false

/-- `Mission::is_valid_security_code`. -/
def Mission.is_valid_security_code (m : Mission) : Bool :=
  securityCodeMatches m.security_code.data

/-- `is_comment_or_metadata`: after trimming, the line is empty or
starts with `#`, `SYSTEM:`, `CONFIG:` or `CHECKSUM:`. -/
def is_comment_or_metadata (line : String) : Bool :=
  let trimmed := trimChars line.data
  trimmed.isEmpty || ['#'].isPrefixOf trimmed ||
    "SYSTEM:".data.isPrefixOf trimmed ||
    "CONFIG:".data.isPrefixOf trimmed ||
    "CHECKSUM:".data.isPrefixOf trimmed

/-- The `Statistics` counter set of src/main.rs. -/
structure Statistics where
  total_lines : Nat
  data_lines : Nat
  mars_missions : Nat
  completed_mars_missions : Nat
  valid_missions : Nat
  errors : Nat
deriving Repr, DecidableEq

/-- `Statistics::default()`: all counters zero. -/
def Statistics.init : Statistics := ⟨0, 0, 0, 0, 0, 0⟩

/-- The aggregator's mutable state inside `process_file`: the accepted
`missions` vector and the `stats` counters. -/
structure ProcState where
  missions : List Mission
  stats : Statistics
deriving Repr, DecidableEq

/-- One line handed to the loop of `process_file`: `some line` when
`BufRead::lines` yields `Ok`, `none` when it yields a per-line read
error. -/
abbrev LineRead := Option String

/-- One iteration of the `process_file` loop: count the line, handle a
read failure, skip comments/metadata, parse, then run the
destination → status → duration → security-code filters, updating the
counters exactly as the source does. -/
def processLine (st : ProcState) (lr : LineRead) (line_number : Nat) :
    ProcState :=
  let stats0 := { st.stats with total_lines := st.stats.total_lines + 1 }
  match lr with
  | none => { st with stats := { stats0 with errors := stats0.errors + 1 } }
  | some line =>
    if is_comment_or_metadata line then
      { st with stats := stats0 }
    else
      let stats1 := { stats0 with data_lines := stats0.data_lines + 1 }
      match Mission.from_line line line_number with
      | none =>
        { st with stats := { stats1 with errors := stats1.errors + 1 } }
      | some mission =>
        if !eqIgnoreAsciiCase mission.destination "mars" then
          { st with stats := stats1 }
        else
          let stats2 :=
            { stats1 with mars_missions := stats1.mars_missions + 1 }
          if !eqIgnoreAsciiCase mission.status "completed" then
            { st with stats := stats2 }
          else
            let stats3 := { stats2 with
              completed_mars_missions := stats2.completed_mars_missions + 1 }
            if mission.duration = 0 then
              { st with stats := { stats3 with errors := stats3.errors + 1 } }
            else if !mission.is_valid_security_code then
              { st with stats := { stats3 with errors := stats3.errors + 1 } }
            else
              { missions := st.missions ++ [mission],
                stats := { stats3 with
                  valid_missions := stats3.valid_missions + 1 } }

/-- The `for (idx, line_result)` loop of `process_file`, carrying the
1-based line number. -/
def processFrom (st : ProcState) (line_number : Nat) :
    List LineRead → ProcState
  | [] => st
  | lr :: rest => processFrom (processLine st lr line_number) (line_number + 1) rest

/-- `process_file` after a successful open: fold the loop over the line
reads from fresh state and return the accepted missions with the final
statistics. (A failed open aborts before any of this runs.) -/
def process_file (lines : List LineRead) : List Mission × Statistics :=
  let st := processFrom ⟨[], Statistics.init⟩ 1 lines
  (st.missions, st.stats)

/-- The four diagnostics `main` prints when no mission was accepted. -/
inductive NoValidDiag where
  | noDataLines
  | noMarsMissions
  | noneCompleted
  | allInvalid
deriving Repr, DecidableEq

/-- The counter-inspection chain of `main` (lines 330–338): data lines,
then Mars missions, then completed Mars missions, else all-invalid. -/
def diagnose (stats : Statistics) : NoValidDiag :=
  if stats.data_lines = 0 then .noDataLines
  else if stats.mars_missions = 0 then .noMarsMissions
  else if stats.completed_mars_missions = 0 then .noneCompleted
  else .allInvalid

/-- The ranking step of `main` (lines 342–347): a stable sort by
duration descending (Rust `sort_by` is stable; `mergeSort` with a total
comparison is its unique stable result), then `truncate` to
`top.min(len)`. -/
def rankMissions (missions : List Mission) (top : Nat) : List Mission :=
  (missions.mergeSort fun a b => b.duration ≤ a.duration).take
    (min top missions.length)

/-- `main` after a successful `process_file`: an empty accepted
collection is surfaced as a distinct error condition carrying the
counter-based diagnostic; otherwise the ranked top-N is produced. -/
def mainRun (lines : List LineRead) (top : Nat) :
    Except NoValidDiag (List Mission × Statistics) :=
  let r := process_file lines
  if r.1.isEmpty then .error (diagnose r.2)
  else .ok (rankMissions r.1 top, r.2)

/-- Componentwise order on the counters: no counter ever decreases. -/
def Statistics.le (s t : Statistics) : Prop :=
  s.total_lines ≤ t.total_lines ∧ s.data_lines ≤ t.data_lines ∧
  s.mars_missions ≤ t.mars_missions ∧
  s.completed_mars_missions ≤ t.completed_mars_missions ∧
  s.valid_missions ≤ t.valid_missions ∧ s.errors ≤ t.errors

/-- The funnel ordering of the counters:
total ≥ data ≥ mars ≥ completed ≥ valid. -/
def Statistics.ordered (s : Statistics) : Prop :=
  s.data_lines ≤ s.total_lines ∧ s.mars_missions ≤ s.data_lines ∧
  s.completed_mars_missions ≤ s.mars_missions ∧
  s.valid_missions ≤ s.completed_mars_missions

/-- The state after `process_file` has consumed the first `i` lines. -/
def runPrefix (lines : List LineRead) (i : Nat) : ProcState :=
  processFrom ⟨[], Statistics.init⟩ 1 (lines.take i)

/-- Per-line acceptance decision, mirroring the filter cascade of the
loop body: a line contributes a record exactly when it is not
comment/metadata, parses, and survives the destination, status,
duration and security-code filters. Used to state that the aggregator
collects records in encounter order without sorting or truncation. -/
def acceptLine (line : String) (n : Nat) : Option Mission :=
  if is_comment_or_metadata line then none
  else
    match Mission.from_line line n with
    | none => none
    | some m =>
      if !eqIgnoreAsciiCase m.destination "mars" then none
      else if !eqIgnoreAsciiCase m.status "completed" then none
      else if m.duration = 0 then none
      else if !m.is_valid_security_code then none
      else some m

/-- The records the run accepts, read off line by line in encounter
order. -/
def acceptedOf (lines : List LineRead) : List Mission :=
  (lines.enumFrom 1).filterMap fun p => p.2.bind fun l => acceptLine l p.1

/-! ## Theorems -/

/-- The anchored scan accepts exactly the eleven-character
letter/digit/hyphen shape, stated through positional character classes. -/
theorem securityCodeMatches_iff (l : List Char) :
    securityCodeMatches l = true ↔
      ∃ a b c d e f g h i : Char,
        l = [a, b, c, '-', d, e, f, '-', g, h, i] ∧
        (∀ x ∈ [a, b, c, g, h, i], 65 ≤ x.toNat ∧ x.toNat ≤ 90) ∧
        (∀ x ∈ [d, e, f], 48 ≤ x.toNat ∧ x.toNat ≤ 57) := by
  constructor
  · intro hm
    rcases l with _ | ⟨a, _ | ⟨b, _ | ⟨c, _ | ⟨d, _ | ⟨e, _ | ⟨f, _ | ⟨g,
      _ | ⟨h, _ | ⟨i, _ | ⟨j, _ | ⟨k, _ | ⟨m, rest⟩⟩⟩⟩⟩⟩⟩⟩⟩⟩⟩⟩ <;>
      simp [securityCodeMatches, isAsciiUpper, isAsciiDigit] at hm
    exact ⟨a, b, c, e, f, g, i, j, k, by simp_all, by simp_all, by simp_all⟩
  · rintro ⟨a, b, c, d, e, f, g, h, i, rfl, hU, hD⟩
    simp only [List.mem_cons, List.not_mem_nil, or_false, forall_eq_or_imp,
      forall_eq] at hU hD
    simp [securityCodeMatches, isAsciiUpper, isAsciiDigit]
    omega

/-- C2: `is_valid_security_code` returns true exactly for strings
matching the anchored pattern `^[A-Z]{3}-[0-9]{3}-[A-Z]{3}$` — three
ASCII uppercase letters, a hyphen, three ASCII digits, a hyphen, three
ASCII uppercase letters — and is case-sensitive; every string with
extra characters, lowercase letters, wrong segment lengths, missing
hyphens, or letters in the digit block falls outside that shape, as the
appended sample rejections illustrate. The check is a pure function of
the stored code. -/
theorem is_valid_security_code_spec :
    (∀ m : Mission, m.is_valid_security_code = true ↔
      ∃ a b c d e f g h i : Char,
        m.security_code.data = [a, b, c, '-', d, e, f, '-', g, h, i] ∧
        (∀ x ∈ [a, b, c, g, h, i], 65 ≤ x.toNat ∧ x.toNat ≤ 90) ∧
        (∀ x ∈ [d, e, f], 48 ≤ x.toNat ∧ x.toNat ≤ 57)) ∧
    securityCodeMatches "TRX-842-YHG".data = true ∧
    securityCodeMatches "trx-842-yhg".data = false ∧
    securityCodeMatches "TRX-842-YHGG".data = false ∧
    securityCodeMatches "TRX-842-YH".data = false ∧
    securityCodeMatches "TRX-84-YHG".data = false ∧
    securityCodeMatches "TRX842YHG".data = false ∧
    securityCodeMatches "TRX-ABC-YHG".data = false := by
  exact ⟨fun m => securityCodeMatches_iff m.security_code.data, by decide,
    by decide, by decide, by decide, by decide, by decide, by decide⟩

/-- C3: `is_comment_or_metadata` holds exactly when the line, after
trimming surrounding whitespace, is empty or starts with `#`,
`SYSTEM:`, `CONFIG:` or `CHECKSUM:`; in particular it accepts the empty
and whitespace-only strings and rejects a well-formed record line. -/
theorem is_comment_or_metadata_spec :
    (∀ line : String, is_comment_or_metadata line = true ↔
      (trimChars line.data = [] ∨ ['#'] <+: trimChars line.data ∨
       "SYSTEM:".data <+: trimChars line.data ∨
       "CONFIG:".data <+: trimChars line.data ∨
       "CHECKSUM:".data <+: trimChars line.data)) ∧
    is_comment_or_metadata "" = true ∧
    is_comment_or_metadata "   " = true ∧
    is_comment_or_metadata
      "2045-07-12 | KLM-1234 | Mars | Completed | 5 | 387 | 98.7 | TRX-842-YHG"
      = false := by
  refine ⟨fun line => ?_, by decide, by decide, by decide⟩
  simp only [is_comment_or_metadata, Bool.or_eq_true,
    List.isPrefixOf_iff_prefix, List.isEmpty_iff]
  tauto

/-- C1: `Mission::from_line` yields a record exactly when the line
splits on `|` into at least 8 segments whose trimmed segments 4, 5 and
6 parse as u32, u32 and f64; on success the record's string fields are
the trimmed segments 0–3 and 7, its numeric fields are the parsed
values of segments 4–6, and it carries the supplied line number.
Segments beyond the eighth never influence the result, and `Option`
rules out any partial record. -/
theorem from_line_spec :
    (∀ (line : String) (n : Nat),
      ((Mission.from_line line n).isSome = true ↔
        8 ≤ (splitPipe line.data).length ∧
        (parseU32 (trimChars ((splitPipe line.data).getD 4 []))).isSome = true ∧
        (parseU32 (trimChars ((splitPipe line.data).getD 5 []))).isSome = true ∧
        (parseF64 (trimChars ((splitPipe line.data).getD 6 []))).isSome = true) ∧
      (∀ m : Mission, Mission.from_line line n = some m →
        m.date.data = trimChars ((splitPipe line.data).getD 0 []) ∧
        m.mission_id.data = trimChars ((splitPipe line.data).getD 1 []) ∧
        m.destination.data = trimChars ((splitPipe line.data).getD 2 []) ∧
        m.status.data = trimChars ((splitPipe line.data).getD 3 []) ∧
        parseU32 (trimChars ((splitPipe line.data).getD 4 [])) = some m.crew_size ∧
        parseU32 (trimChars ((splitPipe line.data).getD 5 [])) = some m.duration ∧
        parseF64 (trimChars ((splitPipe line.data).getD 6 [])) = some m.success_rate ∧
        m.security_code.data = trimChars ((splitPipe line.data).getD 7 []) ∧
        m.line_number = n)) ∧
    (∀ (l₁ l₂ : String) (n : Nat) (p0 p1 p2 p3 p4 p5 p6 p7 : List Char)
        (r₁ r₂ : List (List Char)),
      splitPipe l₁.data = p0 :: p1 :: p2 :: p3 :: p4 :: p5 :: p6 :: p7 :: r₁ →
      splitPipe l₂.data = p0 :: p1 :: p2 :: p3 :: p4 :: p5 :: p6 :: p7 :: r₂ →
      Mission.from_line l₁ n = Mission.from_line l₂ n) := by
  refine ⟨fun line n => ?_, fun l₁ l₂ n p0 p1 p2 p3 p4 p5 p6 p7 r₁ r₂ h₁ h₂ => ?_⟩
  · rcases hs : splitPipe line.data with _ | ⟨p0, _ | ⟨p1, _ | ⟨p2, _ | ⟨p3,
      _ | ⟨p4, _ | ⟨p5, _ | ⟨p6, _ | ⟨p7, rest⟩⟩⟩⟩⟩⟩⟩⟩ <;>
      simp [Mission.from_line, hs]
    cases h4 : parseU32 (trimChars p4) <;> cases h5 : parseU32 (trimChars p5) <;>
      cases h6 : parseF64 (trimChars p6) <;>
      simp [h4, h5, h6]
  · simp [Mission.from_line, h₁, h₂]

/-- C1 witness: the reference line parses, and a ninth segment does not
change the outcome. -/
theorem from_line_spec_witness :
    (Mission.from_line
        "2045-07-12 | KLM-1234 | Mars | Completed | 5 | 387 | 98.7 | TRX-842-YHG"
        1).isSome = true ∧
    Mission.from_line "A|B|C|D|5|6|7.5|X" 3 =
      Mission.from_line "A|B|C|D|5|6|7.5|X|Y" 3 :=
  ⟨((from_line_spec.1
      "2045-07-12 | KLM-1234 | Mars | Completed | 5 | 387 | 98.7 | TRX-842-YHG"
      1).1).mpr (by decide),
   from_line_spec.2 "A|B|C|D|5|6|7.5|X" "A|B|C|D|5|6|7.5|X|Y" 3
     "A".data "B".data "C".data "D".data "5".data "6".data "7.5".data "X".data
     [] ["Y".data] (by decide) (by decide)⟩

/-- C5: a parsed record whose destination is "Mars" and status
"Completed" (both case-insensitively) but whose duration is zero is
excluded from the accepted collection and counted as an error — the
missions list is unchanged while total, data, Mars and completed
counters (already earned by the line) and the error counter advance —
and the loop then proceeds to the next line. -/
theorem zero_duration_rejected (st : ProcState) (line : String) (n : Nat)
    (m : Mission)
    (hc : is_comment_or_metadata line = false)
    (hp : Mission.from_line line n = some m)
    (hdest : eqIgnoreAsciiCase m.destination "mars" = true)
    (hstat : eqIgnoreAsciiCase m.status "completed" = true)
    (hdur : m.duration = 0) :
    processLine st (some line) n =
      { missions := st.missions,
        stats := { total_lines := st.stats.total_lines + 1,
                   data_lines := st.stats.data_lines + 1,
                   mars_missions := st.stats.mars_missions + 1,
                   completed_mars_missions := st.stats.completed_mars_missions + 1,
                   valid_missions := st.stats.valid_missions,
                   errors := st.stats.errors + 1 } } ∧
    (∀ rest : List LineRead, processFrom st n (some line :: rest) =
      processFrom (processLine st (some line) n) (n + 1) rest) := by
  constructor
  · simp [processLine, hc, hp, hdest, hstat, hdur]
  · intro rest; rfl

/-- C5 witness: a completed Mars line with duration 0, processed from
fresh state, leaves no mission and one error. -/
theorem zero_duration_rejected_witness :
    processLine ⟨[], Statistics.init⟩
        (some "2045-07-12 | KLM-1234 | Mars | Completed | 5 | 0 | 98.7 | TRX-842-YHG")
        1 =
      ⟨[], ⟨1, 1, 1, 1, 0, 1⟩⟩ :=
  ((zero_duration_rejected ⟨[], Statistics.init⟩
      "2045-07-12 | KLM-1234 | Mars | Completed | 5 | 0 | 98.7 | TRX-842-YHG" 1
      ⟨"2045-07-12", "KLM-1234", "Mars", "Completed", 5, 0, "98.7",
        "TRX-842-YHG", 1⟩
      (by decide) (by decide) (by decide) (by decide) rfl).1).trans (by decide)

/-- C6: a parsed record whose destination is not "Mars"
(case-insensitively) is skipped: the missions list and the error, Mars,
completed and valid counters are all untouched; only the total- and
data-line counts earned by reaching the parse stage appear. -/
theorem non_target_destination_skipped (st : ProcState) (line : String)
    (n : Nat) (m : Mission)
    (hc : is_comment_or_metadata line = false)
    (hp : Mission.from_line line n = some m)
    (hdest : eqIgnoreAsciiCase m.destination "mars" = false) :
    processLine st (some line) n =
      { missions := st.missions,
        stats := { total_lines := st.stats.total_lines + 1,
                   data_lines := st.stats.data_lines + 1,
                   mars_missions := st.stats.mars_missions,
                   completed_mars_missions := st.stats.completed_mars_missions,
                   valid_missions := st.stats.valid_missions,
                   errors := st.stats.errors } } := by
  simp [processLine, hc, hp, hdest]

/-- C6 witness: a Jupiter record with otherwise valid fields increments
nothing beyond the line counts. -/
theorem non_target_destination_skipped_witness :
    processLine ⟨[], Statistics.init⟩
        (some "2045-07-12 | KLM-1234 | Jupiter | Completed | 5 | 387 | 98.7 | TRX-842-YHG")
        1 =
      ⟨[], ⟨1, 1, 0, 0, 0, 0⟩⟩ :=
  (non_target_destination_skipped ⟨[], Statistics.init⟩
      "2045-07-12 | KLM-1234 | Jupiter | Completed | 5 | 387 | 98.7 | TRX-842-YHG"
      1
      ⟨"2045-07-12", "KLM-1234", "Jupiter", "Completed", 5, 387, "98.7",
        "TRX-842-YHG", 1⟩
      (by decide) (by decide) (by decide)).trans (by decide)

/-- C7: `main` surfaces the empty accepted collection as an error
condition distinct from the Statistics (the `Except.error` channel of
`mainRun`), carrying a diagnostic chosen from the counters in priority
order: zero data lines first, then zero Mars missions, then zero
completed Mars missions, and otherwise all-invalid. -/
theorem no_qualifying_records_diagnostic :
    (∀ (lines : List LineRead) (top : Nat),
      ((∃ d, mainRun lines top = .error d) ↔ (process_file lines).1 = []) ∧
      ((process_file lines).1 = [] →
        mainRun lines top = .error (diagnose (process_file lines).2))) ∧
    (∀ s : Statistics,
      (s.data_lines = 0 → diagnose s = .noDataLines) ∧
      (s.data_lines ≠ 0 → s.mars_missions = 0 → diagnose s = .noMarsMissions) ∧
      (s.data_lines ≠ 0 → s.mars_missions ≠ 0 → s.completed_mars_missions = 0 →
        diagnose s = .noneCompleted) ∧
      (s.data_lines ≠ 0 → s.mars_missions ≠ 0 → s.completed_mars_missions ≠ 0 →
        diagnose s = .allInvalid)) := by
  constructor
  · intro lines top
    cases hE : (process_file lines).1.isEmpty <;>
      simp_all [mainRun, List.isEmpty_iff, List.isEmpty_eq_false]
  · intro s
    refine ⟨?_, ?_, ?_, ?_⟩ <;> intros <;> simp_all [diagnose]

/-- C7 witness: a comment-only input is surfaced with the no-data-lines
diagnostic, and counters with data but no Mars missions select the
next diagnostic in priority order. -/
theorem no_qualifying_records_diagnostic_witness :
    mainRun [some "# header"] 1 = .error NoValidDiag.noDataLines ∧
    diagnose ⟨5, 3, 0, 0, 0, 2⟩ = NoValidDiag.noMarsMissions :=
  ⟨((no_qualifying_records_diagnostic.1 [some "# header"] 1).2
      (by decide)).trans (congrArg Except.error (by decide)),
   (no_qualifying_records_diagnostic.2 ⟨5, 3, 0, 0, 0, 2⟩).2.1 (by decide)
     (by decide)⟩

/-- C8: the run is a deterministic pure function of the sequence of
line reads — two runs over the same immutable input produce identical
accepted-record lists (order included) and identical Statistics. -/
theorem pipeline_deterministic (lines₁ lines₂ : List LineRead)
    (h : lines₁ = lines₂) :
    (process_file lines₁).1 = (process_file lines₂).1 ∧
    (process_file lines₁).2 = (process_file lines₂).2 := by
  subst h; exact ⟨rfl, rfl⟩

/-- C8 witness: two runs over the reference line agree. -/
theorem pipeline_deterministic_witness :
    (process_file [some "2045-07-12 | KLM-1234 | Mars | Completed | 5 | 387 | 98.7 | TRX-842-YHG"]).1 =
      (process_file [some "2045-07-12 | KLM-1234 | Mars | Completed | 5 | 387 | 98.7 | TRX-842-YHG"]).1 ∧
    (process_file [some "2045-07-12 | KLM-1234 | Mars | Completed | 5 | 387 | 98.7 | TRX-842-YHG"]).2 =
      (process_file [some "2045-07-12 | KLM-1234 | Mars | Completed | 5 | 387 | 98.7 | TRX-842-YHG"]).2 :=
  pipeline_deterministic _ _ rfl

/-- Any all-digit token whose value exceeds `u32::MAX` fails the u32
parse. -/
theorem parseU32_overflow (cs : List Char)
    (hd : cs.all isAsciiDigit = true) (hv : 4294967295 < digitsToNat cs) :
    parseU32 cs = none := by
  rcases cs with _ | ⟨c, rest⟩
  · simp [digitsToNat] at hv
  · have hcp : ¬ c = '+' := by
      intro h
      subst h
      simp [isAsciiDigit] at hd
    have hle : ¬ digitsToNat (c :: rest) ≤ 4294967295 := by omega
    simp [parseU32, hcp, hd, hle]

/-- C10: a line whose crew-size or duration segment trims to a decimal
integer above 4294967295 (`u32::MAX`) fails the numeric parse, and the
whole line yields no record, even though it is a plain non-negative
integer. -/
theorem u32_overflow_rejects_line (line : String) (n : Nat)
    (p0 p1 p2 p3 p4 p5 p6 p7 : List Char) (r : List (List Char))
    (hs : splitPipe line.data = p0 :: p1 :: p2 :: p3 :: p4 :: p5 :: p6 :: p7 :: r)
    (hover :
      ((trimChars p4).all isAsciiDigit = true ∧
        4294967295 < digitsToNat (trimChars p4)) ∨
      ((trimChars p5).all isAsciiDigit = true ∧
        4294967295 < digitsToNat (trimChars p5))) :
    Mission.from_line line n = none := by
  rcases hover with ⟨hd, hv⟩ | ⟨hd, hv⟩
  · simp [Mission.from_line, hs, parseU32_overflow _ hd hv]
  · cases h4 : parseU32 (trimChars p4) <;>
      simp [Mission.from_line, hs, h4, parseU32_overflow _ hd hv]

/-- C10 witness: a crew size of 4294967296 rejects the line. -/
theorem u32_overflow_rejects_line_witness :
    Mission.from_line "D|M|Mars|Completed|4294967296|10|1.0|ABC-123-XYZ" 1 =
      none :=
  u32_overflow_rejects_line
    "D|M|Mars|Completed|4294967296|10|1.0|ABC-123-XYZ" 1
    "D".data "M".data "Mars".data "Completed".data "4294967296".data
    "10".data "1.0".data "ABC-123-XYZ".data [] (by decide)
    (Or.inl ⟨by decide, by decide⟩)

/-- Each loop iteration appends exactly the accepted record of its line
(if any) to the back of the collection. -/
theorem processLine_missions (st : ProcState) (lr : LineRead) (n : Nat) :
    (processLine st lr n).missions =
      st.missions ++ (lr.bind fun l => acceptLine l n).toList := by
  rcases lr with _ | l
  · simp [processLine]
  · by_cases hc : is_comment_or_metadata l
    · simp [processLine, acceptLine, hc]
    · cases hp : Mission.from_line l n with
      | none => simp [processLine, acceptLine, hc, hp]
      | some m =>
        by_cases h1 : eqIgnoreAsciiCase m.destination "mars" <;>
        by_cases h2 : eqIgnoreAsciiCase m.status "completed" <;>
        by_cases h3 : m.duration = 0 <;>
        by_cases h4 : m.is_valid_security_code <;>
        simp [processLine, acceptLine, hc, hp, h1, h2, h3, h4]

/-- The loop collects accepted records strictly in encounter order: its
output is the line-by-line filter of the input appended to the initial
collection. -/
theorem processFrom_missions (lines : List LineRead) (st : ProcState)
    (n : Nat) :
    (processFrom st n lines).missions =
      st.missions ++ ((lines.enumFrom n).filterMap fun p =>
        p.2.bind fun l => acceptLine l p.1) := by
  induction lines generalizing st n with
  | nil => simp [processFrom]
  | cons lr rest ih =>
    simp only [processFrom, List.enumFrom, List.filterMap_cons]
    rw [ih, processLine_missions]
    cases h : (lr.bind fun l => acceptLine l n) <;> simp [h]

/-- C4: the caller's ranking step is a stable descending sort by
duration followed by taking the first N: `rankMissions` is `take (min
top len)` of a permutation of the accepted collection that is pairwise
descending in duration and, restricted to any single duration value,
preserves the original encounter order (stability). The aggregator
itself performs no sorting, truncation, or ranking: its output is the
per-line filter of the input in encounter order. -/
theorem ranking_spec :
    (∀ (missions : List Mission) (top : Nat), ∃ sorted : List Mission,
      rankMissions missions top = sorted.take (min top missions.length) ∧
      sorted.Perm missions ∧
      sorted.Pairwise (fun a b => b.duration ≤ a.duration) ∧
      (∀ d : Nat, sorted.filter (fun m => m.duration == d) =
        missions.filter (fun m => m.duration == d))) ∧
    (∀ lines : List LineRead, (process_file lines).1 = acceptedOf lines) := by
  constructor
  · intro missions top
    refine ⟨missions.mergeSort fun a b => b.duration ≤ a.duration, rfl,
      List.mergeSort_perm _ _, ?_, ?_⟩
    · exact (List.sorted_mergeSort
        (fun a b c hab hbc => by simp_all; omega)
        (fun a b => by simp [Bool.or_eq_true]; omega)
        missions).imp fun h => by simpa using h
    · intro d
      have hpair : (missions.filter fun m => m.duration == d).Pairwise
          fun a b => (decide (b.duration ≤ a.duration)) = true := by
        apply List.pairwise_of_forall_mem_list
        intro a ha b hb
        have ha' := (List.mem_filter.mp ha).2
        have hb' := (List.mem_filter.mp hb).2
        simp_all
      have hsub : List.Sublist (missions.filter fun m => m.duration == d)
          (missions.mergeSort fun a b => b.duration ≤ a.duration) :=
        List.sublist_mergeSort
          (fun a b c hab hbc => by simp_all; omega)
          (fun a b => by simp [Bool.or_eq_true]; omega)
          hpair (List.filter_sublist _)
      have hidem : ((missions.filter fun m => m.duration == d).filter
          fun m => m.duration == d) = missions.filter fun m => m.duration == d :=
        List.filter_eq_self.mpr fun a ha => (List.mem_filter.mp ha).2
      have hsub2 := hsub.filter fun m => m.duration == d
      rw [hidem] at hsub2
      have hlen : ((missions.mergeSort fun a b =>
            b.duration ≤ a.duration).filter fun m => m.duration == d).length =
          (missions.filter fun m => m.duration == d).length :=
        ((List.mergeSort_perm missions _).filter _).length_eq
      exact (hsub2.eq_of_length hlen.symm).symm
  · intro lines
    simp [process_file, processFrom_missions, acceptedOf]

/-- Each loop iteration only ever increases counters. -/
theorem processLine_le (st : ProcState) (lr : LineRead) (n : Nat) :
    Statistics.le st.stats (processLine st lr n).stats := by
  rcases lr with _ | l <;>
    simp only [processLine] <;>
    (repeat' split) <;>
    simp [Statistics.le]

/-- One loop iteration preserves the counter funnel and the agreement
between `valid_missions` and the collection size. -/
theorem processLine_invariant (st : ProcState) (lr : LineRead) (n : Nat)
    (h1 : Statistics.ordered st.stats)
    (h2 : st.stats.valid_missions = st.missions.length) :
    Statistics.ordered (processLine st lr n).stats ∧
    (processLine st lr n).stats.valid_missions =
      (processLine st lr n).missions.length := by
  rcases lr with _ | l <;>
    simp only [processLine] <;>
    (repeat' split) <;>
    simp_all [Statistics.ordered] <;> omega

/-- The loop preserves the invariant across any number of lines. -/
theorem processFrom_invariant (lines : List LineRead) (st : ProcState)
    (n : Nat)
    (h1 : Statistics.ordered st.stats)
    (h2 : st.stats.valid_missions = st.missions.length) :
    Statistics.ordered (processFrom st n lines).stats ∧
    (processFrom st n lines).stats.valid_missions =
      (processFrom st n lines).missions.length := by
  induction lines generalizing st n with
  | nil => exact ⟨h1, h2⟩
  | cons lr rest ih =>
    have h := processLine_invariant st lr n h1 h2
    exact ih _ _ h.1 h.2

/-- Consuming concatenated inputs is consuming them in sequence, with
the line number advanced by the first part's length. -/
theorem processFrom_append (xs ys : List LineRead) (st : ProcState)
    (n : Nat) :
    processFrom st n (xs ++ ys) =
      processFrom (processFrom st n xs) (n + xs.length) ys := by
  induction xs generalizing st n with
  | nil => simp [processFrom]
  | cons x xs ih =>
    simp only [List.cons_append, processFrom, List.append_eq]
    rw [ih]
    congr 1
    simp
    omega

/-- C9: after any prefix of the input the counters satisfy
total ≥ data ≥ mars ≥ completed ≥ valid, `valid_missions` equals the
size of the accepted collection, and processing one more line never
decreases any counter. -/
theorem statistics_invariants (lines : List LineRead) (i : Nat) :
    Statistics.ordered (runPrefix lines i).stats ∧
    (runPrefix lines i).stats.valid_missions =
      (runPrefix lines i).missions.length ∧
    Statistics.le (runPrefix lines i).stats (runPrefix lines (i + 1)).stats := by
  have hinv := processFrom_invariant (lines.take i) ⟨[], Statistics.init⟩ 1
    (by simp [Statistics.ordered, Statistics.init])
    (by simp [Statistics.init])
  refine ⟨hinv.1, hinv.2, ?_⟩
  rcases hx : lines[i]? with _ | x
  · have heq : lines.take (i + 1) = lines.take i := by
      rw [List.take_succ, hx]
      simp
    rw [runPrefix, runPrefix, heq]
    simp [Statistics.le]
  · have hlen : i < lines.length := by
      rcases List.getElem?_eq_some_iff.mp hx with ⟨h, _⟩
      exact h
    have ht : lines.take (i + 1) = lines.take i ++ [x] := by
      rw [List.take_succ, hx]
      rfl
    rw [runPrefix, runPrefix, ht, processFrom_append]
    have hlt : (lines.take i).length = i := by
      simp [List.length_take]
      omega
    rw [hlt]
    exact processLine_le _ x _
